import Mathlib

/-!
Verification of the order/payment lifecycle of the nail-studio storefront:
cart validation (routes/cart.js), the Stripe webhook reconciler
(routes/webhook.js) and the order status routes (routes/orders.js),
shallowly embedded over explicit catalog/order state.  Monetary values are
exact rationals; `mathRound` is JavaScript's `Math.round` on the
nonnegative values that arise here.
-/

/-- JavaScript `Math.round` on the nonnegative rationals used here: round
half toward positive infinity. -/
def mathRound (q : ℚ) : ℤ := ⌊q + 1/2⌋

/-- Rounding to two decimal places on the cent boundary, as in the source
idiom `Math.round(x * 100) / 100`. -/
def round2 (q : ℚ) : ℚ := (mathRound (q * 100) : ℚ) / 100

/-- A stock-bearing (size, design) variant of a product (models/Product.js). -/
structure Variant where
  size : String
  design : String
  stock : ℤ
deriving DecidableEq, Repr

/-- A catalog product with its variants (models/Product.js). -/
structure Product where
  id : ℕ
  title : String
  price : ℚ
  active : Bool
  variants : List Variant
deriving DecidableEq, Repr

/-- The catalog store: the collection backing `Product.findById`. -/
abbrev Catalog := List Product

/-- A client-submitted cart line for POST /cart/validate. -/
structure CartLine where
  productId : ℕ
  size : String
  design : String
  quantity : ℕ
deriving DecidableEq, Repr

/-- A server-computed validated cart item (routes/cart.js, validate loop). -/
structure ValidatedItem where
  product : ℕ
  title : String
  price : ℚ
  quantity : ℕ
  size : String
  design : String
deriving DecidableEq, Repr

/-- Error responses of POST /cart/validate. -/
inductive CartError where
  | badRequest
  | productUnavailable (productId : ℕ)
  | variantUnavailable (title : String)
  | insufficientStock (available : ℤ)
deriving DecidableEq, Repr

/-- The success body of POST /cart/validate. -/
structure CartResponse where
  items : List ValidatedItem
  subtotal : ℚ
  tax : ℚ
  shipping : ℚ
  total : ℚ
deriving DecidableEq, Repr

/-- Product lookup plus the `!product || !product.active` guard of the
validate loop (routes/cart.js). -/
def findActiveProduct (cat : Catalog) (pid : ℕ) : Option Product :=
  match cat.find? (fun p => p.id == pid) with
  | none => none
  | some p => if p.active then some p else none

/-- Variant resolution by exact (size, design) match (routes/cart.js). -/
def findVariant (p : Product) (size design : String) : Option Variant :=
  p.variants.find? (fun v => v.size == size && v.design == design)

/-- The `for (const item of items)` loop of POST /cart/validate
(routes/cart.js lines 98-136).  The catalog is threaded through and
returned so that the read-only claim can be stated about it. -/
def validateLoop : List CartLine → Catalog → List ValidatedItem → ℚ →
    (Except CartError (List ValidatedItem × ℚ)) × Catalog
  | [], cat, acc, sub => (.ok (acc, sub), cat)
  | it :: rest, cat, acc, sub =>
    match findActiveProduct cat it.productId with
    | none => (.error (.productUnavailable it.productId), cat)
    | some p =>
      match findVariant p it.size it.design with
      | none => (.error (.variantUnavailable p.title), cat)
      | some v =>
        if v.stock < (it.quantity : ℤ) then
          (.error (.insufficientStock v.stock), cat)
        else
          validateLoop rest cat
            (acc ++ [⟨p.id, p.title, p.price, it.quantity, v.size, v.design⟩])
            (sub + p.price * (it.quantity : ℚ))

/-- POST /cart/validate (routes/cart.js lines 80-153): express-validator
checks, the validation loop, then tax/shipping/total with each monetary
figure rounded to two decimals in the response. -/
def cartValidate (lines : List CartLine) (cat : Catalog) :
    (Except CartError CartResponse) × Catalog :=
  if lines.isEmpty then (.error .badRequest, cat)
  else if lines.any (fun it => it.quantity < 1 || 10 < it.quantity) then
    (.error .badRequest, cat)
  else
    match validateLoop lines cat [] 0 with
    | (.error e, cat') => (.error e, cat')
    | (.ok (items, sub), cat') =>
      let tax : ℚ := sub * (8 / 100)
      let shipping : ℚ := if 50 ≤ sub then 0 else 999 / 100
      let total : ℚ := sub + tax + shipping
      (.ok ⟨items, round2 sub, round2 tax, round2 shipping, round2 total⟩, cat')

/-- The stock count of the variant reached by `Product.findById` followed by
the (size, design) `find`, if any. -/
def stockOf (cat : Catalog) (pid : ℕ) (size design : String) : Option ℤ :=
  (cat.find? (fun p => p.id == pid)).bind fun p =>
    (p.variants.find? (fun v => v.size == size && v.design == design)).map (·.stock)

/-- A rational lying on the cent grid. -/
def centAligned (q : ℚ) : Prop := ∃ k : ℤ, q = (k : ℚ) / 100

lemma mathRound_intCast (k : ℤ) : mathRound (k : ℚ) = k := by
  have h0 : ⌊(1 / 2 : ℚ)⌋ = 0 := by
    rw [Int.floor_eq_zero_iff, Set.mem_Ico]
    norm_num
  rw [mathRound, Int.floor_int_add, h0, add_zero]

lemma round2_centAligned {q : ℚ} (h : centAligned q) : round2 q = q := by
  obtain ⟨k, rfl⟩ := h
  have : (k : ℚ) / 100 * 100 = (k : ℚ) := by ring
  rw [round2, this, mathRound_intCast]

lemma mathRound_add_int (q : ℚ) (k : ℤ) : mathRound (q + (k : ℚ)) = mathRound q + k := by
  have : q + (k : ℚ) + 1 / 2 = q + 1 / 2 + (k : ℚ) := by ring
  rw [mathRound, this, Int.floor_add_int, mathRound]

lemma round2_add_centAligned {a : ℚ} (t : ℚ) (h : centAligned a) :
    round2 (a + t) = a + round2 t := by
  obtain ⟨k, rfl⟩ := h
  have h1 : ((k : ℚ) / 100 + t) * 100 = t * 100 + (k : ℚ) := by ring
  rw [round2, h1, mathRound_add_int]
  push_cast
  rw [round2]
  ring

lemma centAligned_round2 (q : ℚ) : centAligned (round2 q) :=
  ⟨mathRound (q * 100), rfl⟩

lemma centAligned_add {a b : ℚ} (ha : centAligned a) (hb : centAligned b) :
    centAligned (a + b) := by
  obtain ⟨k, rfl⟩ := ha
  obtain ⟨m, rfl⟩ := hb
  exact ⟨k + m, by push_cast; ring⟩

/-- The rounding identity behind the cart total: if subtotal and shipping
lie on the cent grid then rounding the raw sum agrees with rounding the sum
of the independently rounded figures. -/
lemma round2_sum_eq {s sh : ℚ} (t : ℚ) (hs : centAligned s) (hsh : centAligned sh) :
    round2 (s + t + sh) = round2 (round2 s + round2 t + round2 sh) := by
  have hssh : centAligned (s + sh) := centAligned_add hs hsh
  have h1 : s + t + sh = (s + sh) + t := by ring
  have h2 : round2 s + round2 t + round2 sh = (s + sh) + round2 t := by
    rw [round2_centAligned hs, round2_centAligned hsh]; ring
  rw [h1, h2, round2_add_centAligned t hssh, round2_add_centAligned (round2 t) hssh,
    round2_centAligned (centAligned_round2 t)]

lemma findActiveProduct_mem {cat : Catalog} {pid : ℕ} {p : Product}
    (h : findActiveProduct cat pid = some p) : p ∈ cat := by
  unfold findActiveProduct at h
  split at h
  · exact absurd h (by simp)
  · rename_i q hq
    split at h
    · cases h
      exact List.mem_of_find?_eq_some hq
    · exact absurd h (by simp)

lemma centAligned_mul_natCast {a : ℚ} (h : centAligned a) (n : ℕ) :
    centAligned (a * (n : ℚ)) := by
  obtain ⟨k, rfl⟩ := h
  exact ⟨k * n, by push_cast; ring⟩

lemma validateLoop_subtotal_cent :
    ∀ (lines : List CartLine) (cat : Catalog) (acc : List ValidatedItem) (sub0 : ℚ)
      {items : List ValidatedItem} {sub : ℚ},
      (∀ p ∈ cat, centAligned p.price) → centAligned sub0 →
      (validateLoop lines cat acc sub0).1 = .ok (items, sub) → centAligned sub := by
  intro lines
  induction lines with
  | nil =>
    intro cat acc sub0 items sub hcat h0 h
    unfold validateLoop at h
    simp only [Except.ok.injEq, Prod.mk.injEq] at h
    obtain ⟨-, h2⟩ := h
    rwa [← h2]
  | cons it rest ih =>
    intro cat acc sub0 items sub hcat h0 h
    cases hfp : findActiveProduct cat it.productId with
    | none => simp [validateLoop, hfp] at h
    | some p =>
      cases hfv : findVariant p it.size it.design with
      | none => simp [validateLoop, hfp, hfv] at h
      | some v =>
        by_cases hst : v.stock < (it.quantity : ℤ)
        · simp [validateLoop, hfp, hfv, hst] at h
        · have h' : (validateLoop rest cat
              (acc ++ [⟨p.id, p.title, p.price, it.quantity, v.size, v.design⟩])
              (sub0 + p.price * (it.quantity : ℚ))).1 = .ok (items, sub) := by
            simpa [validateLoop, hfp, hfv, hst] using h
          exact ih cat _ _ hcat
            (centAligned_add h0
              (centAligned_mul_natCast (hcat p (findActiveProduct_mem hfp)) it.quantity)) h'

lemma validateLoop_catalog (lines : List CartLine) :
    ∀ (cat : Catalog) (acc : List ValidatedItem) (sub : ℚ),
      (validateLoop lines cat acc sub).2 = cat := by
  induction lines with
  | nil => intro cat acc sub; rfl
  | cons it rest ih =>
    intro cat acc sub
    cases hfp : findActiveProduct cat it.productId with
    | none => simp [validateLoop, hfp]
    | some p =>
      cases hfv : findVariant p it.size it.design with
      | none => simp [validateLoop, hfp, hfv]
      | some v =>
        by_cases hst : v.stock < (it.quantity : ℤ)
        · simp [validateLoop, hfp, hfv, hst]
        · simp [validateLoop, hfp, hfv, hst, ih]

lemma cartValidate_fst_ok {lines : List CartLine} {cat : Catalog} {res : CartResponse}
    (h : (cartValidate lines cat).1 = .ok res) :
    ∃ items sub, (validateLoop lines cat [] 0).1 = .ok (items, sub) ∧
      res = ⟨items, round2 sub, round2 (sub * (8 / 100)),
        round2 (if (50:ℚ) ≤ sub then 0 else 999 / 100),
        round2 (sub + sub * (8 / 100) + if (50:ℚ) ≤ sub then 0 else 999 / 100)⟩ := by
  unfold cartValidate at h
  split at h
  · exact absurd h (by simp)
  · split at h
    · exact absurd h (by simp)
    · rcases hvl : validateLoop lines cat [] 0 with ⟨r, cat'⟩
      rw [hvl] at h
      cases r with
      | error e => exact absurd h (by simp)
      | ok pr =>
        obtain ⟨items, sub⟩ := pr
        refine ⟨items, sub, by simp [hvl], ?_⟩
        simp at h
        exact h.symm

/-- C3 (amended): for every cart that validates successfully against a
catalog all of whose prices lie on the cent grid, the returned total equals
round2(round2(subtotal) + round2(tax) + round2(shipping)) for the subtotal,
tax and shipping computed by the validation algorithm.  Without the
cent-grid restriction the identity fails (see the counterexample at price
0.554). -/
theorem cart_validate_total_eq_rounded_sum
    (lines : List CartLine) (cat : Catalog) (res : CartResponse)
    (hcent : ∀ p ∈ cat, centAligned p.price)
    (hok : (cartValidate lines cat).1 = .ok res) :
    res.total = round2 (res.subtotal + res.tax + res.shipping) := by
  obtain ⟨items, sub, hvl, rfl⟩ := cartValidate_fst_ok hok
  have hsub : centAligned sub :=
    validateLoop_subtotal_cent lines cat [] 0 hcent ⟨0, by norm_num⟩ hvl
  have hship : centAligned (if (50:ℚ) ≤ sub then 0 else 999 / 100) := by
    split
    · exact ⟨0, by norm_num⟩
    · exact ⟨999, by norm_num⟩
  exact round2_sum_eq (sub * (8 / 100)) hsub hship

/-- C7: cart validation is read-only with respect to the catalog: the
catalog after any validation call, successful or not, is the input catalog,
so every variant's stock is unchanged. -/
theorem cart_validate_stock_readonly (lines : List CartLine) (cat : Catalog) :
    (cartValidate lines cat).2 = cat ∧
    ∀ (pid : ℕ) (size design : String),
      stockOf (cartValidate lines cat).2 pid size design = stockOf cat pid size design := by
  have h : (cartValidate lines cat).2 = cat := by
    unfold cartValidate
    split
    · rfl
    · split
      · rfl
      · rcases hvl : validateLoop lines cat [] 0 with ⟨r, cat'⟩
        have h2 : cat' = cat := by
          have h3 := validateLoop_catalog lines cat [] 0
          rw [hvl] at h3
          exact h3
        cases r with
        | error e => simp [hvl, h2]
        | ok pr => obtain ⟨items, sub⟩ := pr; simp [hvl, h2]
  exact ⟨h, fun pid size design => by rw [h]⟩

/-- C9: for every cart that validates successfully, the returned shipping
charge is 0 when the algorithm's subtotal is at least 50.00 and exactly
9.99 otherwise. -/
theorem cart_validate_shipping_threshold
    (lines : List CartLine) (cat : Catalog) (res : CartResponse)
    (hok : (cartValidate lines cat).1 = .ok res) :
    ∃ items sub, (validateLoop lines cat [] 0).1 = .ok (items, sub) ∧
      ((50 ≤ sub → res.shipping = 0) ∧ (sub < 50 → res.shipping = 999 / 100)) := by
  obtain ⟨items, sub, hvl, rfl⟩ := cartValidate_fst_ok hok
  refine ⟨items, sub, hvl, fun h => ?_, fun h => ?_⟩
  · show round2 (if (50:ℚ) ≤ sub then 0 else 999 / 100) = 0
    rw [if_pos h]
    exact round2_centAligned ⟨0, by norm_num⟩
  · show round2 (if (50:ℚ) ≤ sub then 0 else 999 / 100) = 999 / 100
    rw [if_neg (not_le.mpr h)]
    exact round2_centAligned ⟨999, by norm_num⟩

theorem cart_validate_total_eq_rounded_sum_witness :
    ∃ res : CartResponse,
      (cartValidate [⟨1, "M", "French", 2⟩]
        [⟨1, "Classic French", 2499/100, true, [⟨"M", "French", 25⟩]⟩]).1 = .ok res ∧
      res.total = round2 (res.subtotal + res.tax + res.shipping) := by
  have hok : (cartValidate [⟨1, "M", "French", 2⟩]
      [⟨1, "Classic French", 2499/100, true, [⟨"M", "French", 25⟩]⟩]).1 =
      .ok ⟨[⟨1, "Classic French", 2499/100, 2, "M", "French"⟩],
        4998/100, 4, 999/100, 6397/100⟩ := by
    norm_num [cartValidate, validateLoop, findActiveProduct, findVariant, round2, mathRound,
      List.find?]
  refine ⟨_, hok, cart_validate_total_eq_rounded_sum _ _ _ ?_ hok⟩
  intro p hp
  simp only [List.mem_singleton] at hp
  subst hp
  exact ⟨2499, by norm_num⟩

theorem cart_validate_shipping_threshold_witness :
    ∃ res : CartResponse,
      (cartValidate [⟨2, "L", "Stiletto", 2⟩]
        [⟨2, "Red Stiletto", 30, true, [⟨"L", "Stiletto", 12⟩]⟩]).1 = .ok res ∧
      ∃ items sub, (validateLoop [⟨2, "L", "Stiletto", 2⟩]
          [⟨2, "Red Stiletto", 30, true, [⟨"L", "Stiletto", 12⟩]⟩] [] 0).1 = .ok (items, sub) ∧
        ((50 ≤ sub → res.shipping = 0) ∧ (sub < 50 → res.shipping = 999 / 100)) := by
  have hok : (cartValidate [⟨2, "L", "Stiletto", 2⟩]
      [⟨2, "Red Stiletto", 30, true, [⟨"L", "Stiletto", 12⟩]⟩]).1 =
      .ok ⟨[⟨2, "Red Stiletto", 30, 2, "L", "Stiletto"⟩], 60, 24/5, 0, 324/5⟩ := by
    norm_num [cartValidate, validateLoop, findActiveProduct, findVariant, round2, mathRound,
      List.find?]
  exact ⟨_, hok, cart_validate_shipping_threshold _ _ _ hok⟩

/-- Payment sub-record status (models/Order.js paymentInfo.status). -/
inductive PayStatus where
  | pending
  | paid
  | failed
deriving DecidableEq, Repr

/-- Order lifecycle status (models/Order.js status enum). -/
inductive OrderStatus where
  | pending
  | confirmed
  | processing
  | shipped
  | delivered
  | cancelled
deriving DecidableEq, Repr

/-- The payment sub-record of an order. -/
structure PaymentInfo where
  status : PayStatus
  amount : ℚ
  stripeSessionId : String
  stripePaymentIntentId : Option String
  paidAt : Option ℕ
deriving DecidableEq, Repr

/-- A status-history entry {status, date, note}. -/
structure HistoryEntry where
  status : OrderStatus
  date : ℕ
  note : String
deriving DecidableEq, Repr

/-- A persisted order (models/Order.js).  Line items are the validated cart
items frozen at checkout time. -/
structure Order where
  id : ℕ
  orderNumber : ℕ
  user : ℕ
  items : List ValidatedItem
  subtotal : ℚ
  tax : ℚ
  shipping : ℚ
  total : ℚ
  shippingInfo : String
  paymentInfo : PaymentInfo
  status : OrderStatus
  trackingNumber : Option String
  notes : Option String
  statusHistory : List HistoryEntry
deriving DecidableEq, Repr

/-- The persistent state the webhook and order routes act on. -/
structure DB where
  orders : List Order
  products : Catalog
deriving DecidableEq, Repr

/-- The fields of a Stripe checkout session object used by the webhook
handler: metadata.orderId and payment_intent. -/
structure StripeSession where
  orderId : ℕ
  paymentIntent : String
deriving DecidableEq, Repr

/-- Order.findById. -/
def findOrderById (db : DB) (oid : ℕ) : Option Order :=
  db.orders.find? (fun o => o.id == oid)

/-- Order.findOne on the paymentInfo.stripePaymentIntentId secondary index. -/
def findOrderByPaymentIntent (db : DB) (paymentIntent : String) : Option Order :=
  db.orders.find? (fun o => o.paymentInfo.stripePaymentIntentId == some paymentIntent)

/-- Persisting a mutated order document: replace the stored order bearing
its id. -/
def saveOrderIn : List Order → Order → List Order
  | [], _ => []
  | o :: os, o' => if o.id == o'.id then o' :: os else o :: saveOrderIn os o'

/-- Persisting a mutated product document: replace the stored product
bearing its id. -/
def saveProductIn : Catalog → Product → Catalog
  | [], _ => []
  | p :: ps, p' => if p.id == p'.id then p' :: ps else p :: saveProductIn ps p'

/-- In-place mutation of the stock of the variant found by the (size,
design) scan: the first matching variant gets the new stock count. -/
def updateFirstVariant : List Variant → String → String → ℤ → List Variant
  | [], _, _, _ => []
  | v :: vs, size, design, newStock =>
    if v.size == size && v.design == design then { v with stock := newStock } :: vs
    else v :: updateFirstVariant vs size design newStock

/-- One iteration of the stock loop of handleCheckoutSessionCompleted
(routes/webhook.js lines 541-553): look the product up, find the variant,
and decrement only when the variant exists and has sufficient stock,
skipping the line silently otherwise. -/
def decrementStockForItem (cat : Catalog) (it : ValidatedItem) : Catalog :=
  match cat.find? (fun p => p.id == it.product) with
  | none => cat
  | some p =>
    match p.variants.find? (fun v => v.size == it.size && v.design == it.design) with
    | none => cat
    | some v =>
      if (it.quantity : ℤ) ≤ v.stock then
        saveProductIn cat
          { p with variants := updateFirstVariant p.variants it.size it.design (v.stock - it.quantity) }
      else cat

/-- The `for (const item of order.items)` stock loop. -/
def decrementAllItems (items : List ValidatedItem) (cat : Catalog) : Catalog :=
  items.foldl decrementStockForItem cat

/-- The order mutation block of handleCheckoutSessionCompleted
(routes/webhook.js lines 532-538). -/
def csCompletedUpdate (o : Order) (s : StripeSession) (now : ℕ) : Order :=
  { o with
    paymentInfo := { o.paymentInfo with
      status := .paid
      stripePaymentIntentId := some s.paymentIntent
      paidAt := some now }
    status := .confirmed }

/-- handleCheckoutSessionCompleted (routes/webhook.js lines 522-559): find
the order by the orderId metadata; if absent, no-op; otherwise mark it paid
and confirmed, save it, then run the stock loop over its items. -/
def handleCheckoutSessionCompleted (s : StripeSession) (now : ℕ) (db : DB) : DB :=
  match findOrderById db s.orderId with
  | none => db
  | some o =>
    let o' := csCompletedUpdate o s now
    { orders := saveOrderIn db.orders o'
      products := decrementAllItems o'.items db.products }

/-- The order mutation block of handlePaymentIntentSucceeded
(routes/webhook.js lines 568-576). -/
def piSucceededUpdate (o : Order) (now : ℕ) : Order :=
  { o with
    paymentInfo := { o.paymentInfo with status := .paid, paidAt := some now }
    status := if o.status = .pending then .confirmed else o.status }

/-- handlePaymentIntentSucceeded (routes/webhook.js lines 562-582). -/
def handlePaymentIntentSucceeded (paymentIntent : String) (now : ℕ) (db : DB) : DB :=
  match findOrderByPaymentIntent db paymentIntent with
  | none => db
  | some o => { db with orders := saveOrderIn db.orders (piSucceededUpdate o now) }

/-- The order mutation block of handlePaymentIntentFailed
(routes/webhook.js lines 591-594). -/
def piFailedUpdate (o : Order) : Order :=
  { o with
    paymentInfo := { o.paymentInfo with status := .failed }
    status := .cancelled }

/-- handlePaymentIntentFailed (routes/webhook.js lines 585-600). -/
def handlePaymentIntentFailed (paymentIntent : String) (db : DB) : DB :=
  match findOrderByPaymentIntent db paymentIntent with
  | none => db
  | some o => { db with orders := saveOrderIn db.orders (piFailedUpdate o) }

/-- A webhook event as parsed by stripe.webhooks.constructEvent. -/
inductive WebhookEvent where
  | checkoutSessionCompleted (s : StripeSession)
  | paymentIntentSucceeded (paymentIntent : String)
  | paymentIntentFailed (paymentIntent : String)
  | other
deriving DecidableEq, Repr

/-- The webhook endpoint's response: 200 {received:true} or the 400
Webhook Error sent when signature verification fails. -/
inductive WebhookResp where
  | received
  | sigFailure
deriving DecidableEq, Repr

/-- POST /webhook/stripe (routes/webhook.js lines 485-519).  The result of
`stripe.webhooks.constructEvent` over the raw payload is passed in: `none`
means signature verification threw, `some e` the authenticated event. -/
def webhookRoute (ev : Option WebhookEvent) (now : ℕ) (db : DB) : WebhookResp × DB :=
  match ev with
  | none => (.sigFailure, db)
  | some e =>
    match e with
    | .checkoutSessionCompleted s => (.received, handleCheckoutSessionCompleted s now db)
    | .paymentIntentSucceeded p => (.received, handlePaymentIntentSucceeded p now db)
    | .paymentIntentFailed p => (.received, handlePaymentIntentFailed p db)
    | .other => (.received, db)

/-- Responses of PUT /orders/:id/cancel. -/
inductive CancelResult where
  | ok (o : Order)
  | cannotCancel
  | notFound
deriving DecidableEq, Repr

/-- PUT /orders/:id/cancel (routes/orders.js lines 318-352): owner-scoped
lookup, allowed only from pending or confirmed, sets status to cancelled. -/
def cancelOrder (db : DB) (oid uid : ℕ) : CancelResult × DB :=
  match db.orders.find? (fun o => o.id == oid && o.user == uid) with
  | none => (.notFound, db)
  | some o =>
    if o.status = .pending ∨ o.status = .confirmed then
      let o' := { o with status := OrderStatus.cancelled }
      (.ok o', { db with orders := saveOrderIn db.orders o' })
    else (.cannotCancel, db)

/-- Responses of PUT /orders/admin/:id/status. -/
inductive AdminResult where
  | ok
  | notFound
  | validationFailed
deriving DecidableEq, Repr

/-- Modelled from the spec: models/Order.js is not under src/, and the
statusHistory append it performs on persisting an admin-initiated explicit
status change is modelled here from the spec's words — every explicit
(admin-initiated) status change appends a {status, timestamp, note} entry
to status history, while payment-driven transitions do not. -/
def appendStatusHistory (o : Order) (now : ℕ) (note : String) : Order :=
  { o with statusHistory := o.statusHistory ++ [⟨o.status, now, note⟩] }

/-- The `if (field) { order.field = field }` truthiness guard of the admin
status route: an absent or empty incoming value keeps the stored one. -/
def applyOptField (cur incoming : Option String) : Option String :=
  match incoming with
  | some t => if t = "" then cur else some t
  | none => cur

/-- PUT /orders/admin/:id/status (routes/orders.js lines 213-269):
express-validator length checks, then set status and the optional tracking
number and notes, then save (which appends the history entry, see
appendStatusHistory). -/
def adminUpdateStatus (db : DB) (oid : ℕ) (newStatus : OrderStatus)
    (tracking notes : Option String) (now : ℕ) : AdminResult × DB :=
  if 100 < (tracking.getD "").length ∨ 1000 < (notes.getD "").length then
    (.validationFailed, db)
  else
    match db.orders.find? (fun o => o.id == oid) with
    | none => (.notFound, db)
    | some o =>
      let o1 := { o with
        status := newStatus
        trackingNumber := applyOptField o.trackingNumber tracking
        notes := applyOptField o.notes notes }
      let o2 := appendStatusHistory o1 now (notes.getD "")
      (.ok, { db with orders := saveOrderIn db.orders o2 })

/-- C4: a webhook request whose signature does not verify is rejected with
the 400 Webhook Error response and no handler runs: the order and product
state after the call is exactly the state before it. -/
theorem webhook_invalid_signature_rejects_unchanged (now : ℕ) (db : DB) :
    webhookRoute none now db = (.sigFailure, db) ∧
    (webhookRoute none now db).2.orders = db.orders ∧
    (webhookRoute none now db).2.products = db.products :=
  ⟨rfl, rfl, rfl⟩

/-- C5: for an order found by its payment-intent reference, the payment
intent succeeded handler marks it paid with a paid timestamp, and changes
its status to confirmed exactly when it was pending, leaving any other
status unchanged. -/
theorem payment_intent_succeeded_promotes_pending_only
    (db : DB) (paymentIntent : String) (now : ℕ) (order : Order)
    (hfind : findOrderByPaymentIntent db paymentIntent = some order) :
    handlePaymentIntentSucceeded paymentIntent now db =
      { db with orders := saveOrderIn db.orders (piSucceededUpdate order now) } ∧
    (piSucceededUpdate order now).paymentInfo.status = .paid ∧
    (piSucceededUpdate order now).paymentInfo.paidAt = some now ∧
    ((piSucceededUpdate order now).status = .confirmed ∧
        (piSucceededUpdate order now).status ≠ order.status ↔
      order.status = .pending) ∧
    (order.status ≠ .pending → (piSucceededUpdate order now).status = order.status) := by
  refine ⟨?_, rfl, rfl, ?_, ?_⟩
  · unfold handlePaymentIntentSucceeded
    rw [hfind]
  · by_cases h : order.status = OrderStatus.pending
    · simp [piSucceededUpdate, h]
    · simp [piSucceededUpdate, h]
  · intro h
    simp [piSucceededUpdate, h]

theorem payment_intent_succeeded_promotes_pending_only_witness :
    findOrderByPaymentIntent
        ⟨[⟨1, 1, 1, [], 0, 0, 0, 0, "", ⟨.pending, 0, "", some "p1", none⟩,
          .shipped, none, none, []⟩], []⟩ "p1" =
      some ⟨1, 1, 1, [], 0, 0, 0, 0, "", ⟨.pending, 0, "", some "p1", none⟩,
        .shipped, none, none, []⟩ ∧
    (piSucceededUpdate ⟨1, 1, 1, [], 0, 0, 0, 0, "", ⟨.pending, 0, "", some "p1", none⟩,
      .shipped, none, none, []⟩ 5).paymentInfo.status = .paid ∧
    (piSucceededUpdate ⟨1, 1, 1, [], 0, 0, 0, 0, "", ⟨.pending, 0, "", some "p1", none⟩,
      .shipped, none, none, []⟩ 5).status = .shipped := by
  have h := payment_intent_succeeded_promotes_pending_only
    ⟨[⟨1, 1, 1, [], 0, 0, 0, 0, "", ⟨.pending, 0, "", some "p1", none⟩,
      .shipped, none, none, []⟩], []⟩ "p1" 5
    ⟨1, 1, 1, [], 0, 0, 0, 0, "", ⟨.pending, 0, "", some "p1", none⟩,
      .shipped, none, none, []⟩ rfl
  exact ⟨rfl, h.2.1, h.2.2.2.2 (by simp)⟩

lemma cancelOrder_found {db : DB} {oid uid : ℕ} {order : Order}
    (hfind : db.orders.find? (fun o => o.id == oid && o.user == uid) = some order) :
    cancelOrder db oid uid =
      if order.status = .pending ∨ order.status = .confirmed then
        (.ok { order with status := OrderStatus.cancelled },
          { db with orders := saveOrderIn db.orders { order with status := OrderStatus.cancelled } })
      else (.cannotCancel, db) := by
  unfold cancelOrder
  rw [hfind]

/-- C6: user-initiated cancellation of an owned order succeeds and sets the
status to cancelled exactly when the current status is pending or
confirmed; any other status is rejected with the cannot-cancel error and
the state is unchanged. -/
theorem cancel_order_allowed_iff_pending_or_confirmed
    (db : DB) (oid uid : ℕ) (order : Order)
    (hfind : db.orders.find? (fun o => o.id == oid && o.user == uid) = some order) :
    ((order.status = .pending ∨ order.status = .confirmed) →
      cancelOrder db oid uid =
        (.ok { order with status := OrderStatus.cancelled },
          { db with orders := saveOrderIn db.orders { order with status := OrderStatus.cancelled } })) ∧
    ((order.status ≠ .pending ∧ order.status ≠ .confirmed) →
      cancelOrder db oid uid = (.cannotCancel, db)) := by
  constructor
  · intro h
    rw [cancelOrder_found hfind, if_pos h]
  · rintro ⟨h1, h2⟩
    rw [cancelOrder_found hfind, if_neg (not_or.mpr ⟨h1, h2⟩)]

theorem cancel_order_allowed_iff_pending_or_confirmed_witness :
    cancelOrder ⟨[⟨3, 3, 9, [], 0, 0, 0, 0, "", ⟨.pending, 0, "", none, none⟩,
        .shipped, none, none, []⟩], []⟩ 3 9 =
      (.cannotCancel, ⟨[⟨3, 3, 9, [], 0, 0, 0, 0, "", ⟨.pending, 0, "", none, none⟩,
        .shipped, none, none, []⟩], []⟩) :=
  (cancel_order_allowed_iff_pending_or_confirmed
    ⟨[⟨3, 3, 9, [], 0, 0, 0, 0, "", ⟨.pending, 0, "", none, none⟩,
      .shipped, none, none, []⟩], []⟩ 3 9
    ⟨3, 3, 9, [], 0, 0, 0, 0, "", ⟨.pending, 0, "", none, none⟩,
      .shipped, none, none, []⟩ rfl).2 (by simp)

/-- C10: user cancellation of a pending or confirmed order mutates only the
status field of that order: the payment sub-record, line items, monetary
totals, shipping snapshot, tracking, notes and status history are kept, and
the product catalog (hence every variant stock count) is untouched — no
refund is recorded and no stock is restored. -/
theorem cancel_order_frame
    (db : DB) (oid uid : ℕ) (order : Order)
    (hfind : db.orders.find? (fun o => o.id == oid && o.user == uid) = some order)
    (hstatus : order.status = .pending ∨ order.status = .confirmed) :
    (cancelOrder db oid uid).2.products = db.products ∧
    ∃ o', (cancelOrder db oid uid).1 = .ok o' ∧
      (cancelOrder db oid uid).2.orders = saveOrderIn db.orders o' ∧
      o'.status = .cancelled ∧
      o'.paymentInfo = order.paymentInfo ∧
      o'.items = order.items ∧
      o'.subtotal = order.subtotal ∧ o'.tax = order.tax ∧
      o'.shipping = order.shipping ∧ o'.total = order.total ∧
      o'.shippingInfo = order.shippingInfo ∧
      o'.trackingNumber = order.trackingNumber ∧
      o'.notes = order.notes ∧
      o'.statusHistory = order.statusHistory ∧
      o'.id = order.id ∧ o'.user = order.user ∧ o'.orderNumber = order.orderNumber := by
  rw [cancelOrder_found hfind, if_pos hstatus]
  exact ⟨rfl, { order with status := OrderStatus.cancelled }, rfl, rfl, rfl, rfl, rfl,
    rfl, rfl, rfl, rfl, rfl, rfl, rfl, rfl, rfl, rfl, rfl⟩

theorem cancel_order_frame_witness :
    (cancelOrder ⟨[⟨4, 4, 2, [], 10, 1, 0, 11, "a", ⟨.paid, 11, "s", some "p", some 3⟩,
        .confirmed, none, none, []⟩], [⟨9, "t", 5, true, [⟨"M", "d", 7⟩]⟩]⟩ 4 2).2.products =
      [⟨9, "t", 5, true, [⟨"M", "d", 7⟩]⟩] :=
  (cancel_order_frame
    ⟨[⟨4, 4, 2, [], 10, 1, 0, 11, "a", ⟨.paid, 11, "s", some "p", some 3⟩,
      .confirmed, none, none, []⟩], [⟨9, "t", 5, true, [⟨"M", "d", 7⟩]⟩]⟩ 4 2
    ⟨4, 4, 2, [], 10, 1, 0, 11, "a", ⟨.paid, 11, "s", some "p", some 3⟩,
      .confirmed, none, none, []⟩ rfl (Or.inr rfl)).1

/-- C8: a successful admin-initiated status update appends one {status,
timestamp, note} entry carrying the new status to the order's status
history, while the payment-driven order mutations of all three webhook
handlers leave status history untouched. -/
theorem admin_status_update_appends_history
    (db : DB) (oid : ℕ) (newStatus : OrderStatus) (tracking notes : Option String)
    (now : ℕ) (order : Order)
    (hfind : db.orders.find? (fun o => o.id == oid) = some order)
    (hvalid : ¬(100 < (tracking.getD "").length ∨ 1000 < (notes.getD "").length)) :
    (∃ o', adminUpdateStatus db oid newStatus tracking notes now =
        (.ok, { db with orders := saveOrderIn db.orders o' }) ∧
      o'.status = newStatus ∧
      o'.statusHistory = order.statusHistory ++ [⟨newStatus, now, notes.getD ""⟩]) ∧
    (∀ (o : Order) (s : StripeSession) (t : ℕ),
      (csCompletedUpdate o s t).statusHistory = o.statusHistory) ∧
    (∀ (o : Order) (t : ℕ), (piSucceededUpdate o t).statusHistory = o.statusHistory) ∧
    (∀ o : Order, (piFailedUpdate o).statusHistory = o.statusHistory) := by
  refine ⟨?_, fun o s t => rfl, fun o t => rfl, fun o => rfl⟩
  refine ⟨appendStatusHistory
    { order with
      status := newStatus
      trackingNumber := applyOptField order.trackingNumber tracking
      notes := applyOptField order.notes notes } now (notes.getD ""), ?_, rfl, rfl⟩
  unfold adminUpdateStatus
  rw [if_neg hvalid, hfind]

theorem admin_status_update_appends_history_witness :
    ∃ o', adminUpdateStatus ⟨[⟨6, 6, 2, [], 0, 0, 0, 0, "", ⟨.paid, 0, "", none, none⟩,
        .confirmed, none, none, [⟨.pending, 0, "created"⟩]⟩], []⟩ 6
        .shipped (some "TRACK1") (some "sent") 42 =
      (.ok, { orders := saveOrderIn [⟨6, 6, 2, [], 0, 0, 0, 0, "", ⟨.paid, 0, "", none, none⟩,
          .confirmed, none, none, [⟨.pending, 0, "created"⟩]⟩] o', products := [] }) ∧
      o'.status = .shipped ∧
      o'.statusHistory = [⟨.pending, 0, "created"⟩] ++ [⟨.shipped, 42, "sent"⟩] :=
  (admin_status_update_appends_history
    ⟨[⟨6, 6, 2, [], 0, 0, 0, 0, "", ⟨.paid, 0, "", none, none⟩,
      .confirmed, none, none, [⟨.pending, 0, "created"⟩]⟩], []⟩ 6
    .shipped (some "TRACK1") (some "sent") 42
    ⟨6, 6, 2, [], 0, 0, 0, 0, "", ⟨.paid, 0, "", none, none⟩,
      .confirmed, none, none, [⟨.pending, 0, "created"⟩]⟩ rfl (by decide)).1

lemma find?_saveProductIn_ne {cat : Catalog} {p' : Product} {pid : ℕ} (h : ¬p'.id = pid) :
    (saveProductIn cat p').find? (fun p => p.id == pid) = cat.find? (fun p => p.id == pid) := by
  induction cat with
  | nil => rfl
  | cons q cat ih =>
    unfold saveProductIn
    by_cases hq : (q.id == p'.id) = true
    · rw [if_pos hq]
      have hq' : q.id = p'.id := by simpa using hq
      have h1 : ¬((fun p : Product => p.id == pid) p') = true := by simpa using h
      have h2 : ¬((fun p : Product => p.id == pid) q) = true := by simp [hq']; exact h
      rw [@List.find?_cons_of_neg _ (fun p => p.id == pid) p' cat h1,
        @List.find?_cons_of_neg _ (fun p => p.id == pid) q cat h2]
    · rw [if_neg hq]
      by_cases hqp : ((fun p : Product => p.id == pid) q) = true
      · rw [@List.find?_cons_of_pos _ (fun p => p.id == pid) q (saveProductIn cat p') hqp,
          @List.find?_cons_of_pos _ (fun p => p.id == pid) q cat hqp]
      · rw [@List.find?_cons_of_neg _ (fun p => p.id == pid) q (saveProductIn cat p') hqp,
          @List.find?_cons_of_neg _ (fun p => p.id == pid) q cat hqp]
        exact ih

lemma find?_saveProductIn_self {cat : Catalog} {p p' : Product} {pid : ℕ}
    (hfind : cat.find? (fun q => q.id == pid) = some p) (hid : p'.id = p.id) :
    (saveProductIn cat p').find? (fun q => q.id == pid) = some p' := by
  induction cat with
  | nil => simp at hfind
  | cons q cat ih =>
    by_cases hq : ((fun r : Product => r.id == pid) q) = true
    · rw [@List.find?_cons_of_pos _ (fun r : Product => r.id == pid) q cat hq] at hfind
      have hqp : q = p := Option.some.inj hfind
      subst hqp
      have hq' : q.id = pid := by simpa using hq
      unfold saveProductIn
      rw [if_pos (by simp [hid])]
      exact @List.find?_cons_of_pos _ (fun r : Product => r.id == pid) p' cat (by simp [hid, hq'])
    · rw [@List.find?_cons_of_neg _ (fun r : Product => r.id == pid) q cat hq] at hfind
      have hpid : p.id = pid := by simpa using List.find?_some hfind
      unfold saveProductIn
      have hne : ¬(q.id == p'.id) = true := by
        simp only [beq_iff_eq, hid, hpid]
        intro hcon
        exact hq (by simp [hcon])
      rw [if_neg hne,
        @List.find?_cons_of_neg _ (fun r : Product => r.id == pid) q (saveProductIn cat p') hq]
      exact ih hfind

lemma find?_updateFirstVariant_ne {vs : List Variant} {s1 d1 s2 d2 : String} {ns : ℤ}
    (h : ¬(s2 = s1 ∧ d2 = d1)) :
    (updateFirstVariant vs s1 d1 ns).find? (fun v => v.size == s2 && v.design == d2) =
      vs.find? (fun v => v.size == s2 && v.design == d2) := by
  induction vs with
  | nil => rfl
  | cons v vs ih =>
    unfold updateFirstVariant
    by_cases hv : (v.size == s1 && v.design == d1) = true
    · rw [if_pos hv]
      have hv' : v.size = s1 ∧ v.design = d1 := by simpa using hv
      have hfail : ¬((fun v : Variant => v.size == s2 && v.design == d2) v) = true := by
        simp only [Bool.and_eq_true, beq_iff_eq]
        rintro ⟨h1, h2⟩
        exact h ⟨by rw [← h1, hv'.1], by rw [← h2, hv'.2]⟩
      have hfail' : ¬((fun v : Variant => v.size == s2 && v.design == d2)
          { v with stock := ns }) = true := hfail
      rw [@List.find?_cons_of_neg _ (fun v => v.size == s2 && v.design == d2)
          { v with stock := ns } vs hfail',
        @List.find?_cons_of_neg _ (fun v => v.size == s2 && v.design == d2) v vs hfail]
    · rw [if_neg hv]
      by_cases hv2 : ((fun v : Variant => v.size == s2 && v.design == d2) v) = true
      · rw [@List.find?_cons_of_pos _ (fun v => v.size == s2 && v.design == d2) v
            (updateFirstVariant vs s1 d1 ns) hv2,
          @List.find?_cons_of_pos _ (fun v => v.size == s2 && v.design == d2) v vs hv2]
      · rw [@List.find?_cons_of_neg _ (fun v => v.size == s2 && v.design == d2) v
            (updateFirstVariant vs s1 d1 ns) hv2,
          @List.find?_cons_of_neg _ (fun v => v.size == s2 && v.design == d2) v vs hv2]
        exact ih

lemma find?_updateFirstVariant_self {vs : List Variant} {s d : String} {v : Variant} {ns : ℤ}
    (hfind : vs.find? (fun w => w.size == s && w.design == d) = some v) :
    (updateFirstVariant vs s d ns).find? (fun w => w.size == s && w.design == d) =
      some { v with stock := ns } := by
  induction vs with
  | nil => simp at hfind
  | cons w vs ih =>
    by_cases hw : ((fun w : Variant => w.size == s && w.design == d) w) = true
    · rw [@List.find?_cons_of_pos _ (fun w : Variant => w.size == s && w.design == d)
          w vs hw] at hfind
      have hwv : w = v := Option.some.inj hfind
      subst hwv
      unfold updateFirstVariant
      rw [if_pos hw]
      exact @List.find?_cons_of_pos _ (fun w : Variant => w.size == s && w.design == d)
        { w with stock := ns } vs hw
    · rw [@List.find?_cons_of_neg _ (fun w : Variant => w.size == s && w.design == d)
          w vs hw] at hfind
      unfold updateFirstVariant
      rw [if_neg hw,
        @List.find?_cons_of_neg _ (fun w : Variant => w.size == s && w.design == d)
          w (updateFirstVariant vs s d ns) hw]
      exact ih hfind

lemma decrementStockForItem_found {cat : Catalog} {it : ValidatedItem} {p : Product}
    (hfp : cat.find? (fun q => q.id == it.product) = some p) :
    decrementStockForItem cat it =
      match p.variants.find? (fun v => v.size == it.size && v.design == it.design) with
      | none => cat
      | some v =>
        if (it.quantity : ℤ) ≤ v.stock then
          saveProductIn cat
            { p with variants :=
                updateFirstVariant p.variants it.size it.design (v.stock - it.quantity) }
        else cat := by
  unfold decrementStockForItem
  rw [hfp]

lemma decrementStockForItem_notFound {cat : Catalog} {it : ValidatedItem}
    (hfp : cat.find? (fun q => q.id == it.product) = none) :
    decrementStockForItem cat it = cat := by
  unfold decrementStockForItem
  rw [hfp]

lemma decrementStockForItem_noVariant {cat : Catalog} {it : ValidatedItem} {p : Product}
    (hfp : cat.find? (fun q => q.id == it.product) = some p)
    (hfv : p.variants.find? (fun v => v.size == it.size && v.design == it.design) = none) :
    decrementStockForItem cat it = cat := by
  rw [decrementStockForItem_found hfp, hfv]

lemma decrementStockForItem_some {cat : Catalog} {it : ValidatedItem} {p : Product} {v : Variant}
    (hfp : cat.find? (fun q => q.id == it.product) = some p)
    (hfv : p.variants.find? (fun w => w.size == it.size && w.design == it.design) = some v) :
    decrementStockForItem cat it =
      if (it.quantity : ℤ) ≤ v.stock then
        saveProductIn cat
          { p with variants :=
              updateFirstVariant p.variants it.size it.design (v.stock - it.quantity) }
      else cat := by
  rw [decrementStockForItem_found hfp, hfv]

lemma stockOf_decrementStockForItem_ne (cat : Catalog) (it : ValidatedItem)
    {pid : ℕ} {s d : String}
    (h : ¬(it.product = pid ∧ it.size = s ∧ it.design = d)) :
    stockOf (decrementStockForItem cat it) pid s d = stockOf cat pid s d := by
  cases hfp : cat.find? (fun q => q.id == it.product) with
  | none => rw [decrementStockForItem_notFound hfp]
  | some p =>
    cases hfv : p.variants.find? (fun v => v.size == it.size && v.design == it.design) with
    | none => rw [decrementStockForItem_noVariant hfp hfv]
    | some v =>
      rw [decrementStockForItem_some hfp hfv]
      by_cases hst : (it.quantity : ℤ) ≤ v.stock
      · rw [if_pos hst]
        have hpp : p.id = it.product := by simpa using List.find?_some hfp
        by_cases hpid : p.id = pid
        · have hip : it.product = pid := by rw [← hpp, hpid]
          have hvne : ¬(s = it.size ∧ d = it.design) := by
            rintro ⟨h1, h2⟩
            exact h ⟨hip, h1.symm, h2.symm⟩
          have hfp' : cat.find? (fun q => q.id == pid) = some p := by
            rw [← hip]; exact hfp
          unfold stockOf
          rw [@find?_saveProductIn_self cat p
            { p with variants :=
                updateFirstVariant p.variants it.size it.design (v.stock - it.quantity) }
            pid hfp' rfl, hfp']
          simp only [Option.some_bind]
          rw [find?_updateFirstVariant_ne hvne]
        · unfold stockOf
          rw [@find?_saveProductIn_ne cat
            { p with variants :=
                updateFirstVariant p.variants it.size it.design (v.stock - it.quantity) }
            pid hpid]
      · rw [if_neg hst]

lemma stockOf_decrementStockForItem_self (cat : Catalog) (it : ValidatedItem) {st : ℤ}
    (hstock : stockOf cat it.product it.size it.design = some st)
    (hq : (it.quantity : ℤ) ≤ st) :
    stockOf (decrementStockForItem cat it) it.product it.size it.design =
      some (st - it.quantity) := by
  unfold stockOf at hstock
  cases hfp : cat.find? (fun p => p.id == it.product) with
  | none => rw [hfp] at hstock; simp at hstock
  | some p =>
    rw [hfp] at hstock
    simp only [Option.some_bind] at hstock
    cases hfv : p.variants.find? (fun v => v.size == it.size && v.design == it.design) with
    | none => rw [hfv] at hstock; simp at hstock
    | some v =>
      rw [hfv] at hstock
      have hvst : v.stock = st := by simpa using hstock
      rw [decrementStockForItem_some hfp hfv, if_pos (by rw [hvst]; exact hq)]
      unfold stockOf
      rw [@find?_saveProductIn_self cat p
        { p with variants :=
            updateFirstVariant p.variants it.size it.design (v.stock - it.quantity) }
        it.product hfp rfl]
      simp only [Option.some_bind]
      rw [find?_updateFirstVariant_self hfv]
      simp [hvst]

lemma stockOf_decrementAllItems_ne (items : List ValidatedItem)
    {pid : ℕ} {s d : String}
    (h : ∀ it ∈ items, ¬(it.product = pid ∧ it.size = s ∧ it.design = d)) :
    ∀ cat : Catalog, stockOf (decrementAllItems items cat) pid s d = stockOf cat pid s d := by
  induction items with
  | nil => intro cat; rfl
  | cons hd rest ih =>
    intro cat
    have hfold : decrementAllItems (hd :: rest) cat =
        decrementAllItems rest (decrementStockForItem cat hd) := rfl
    rw [hfold, ih (fun it hm => h it (List.mem_cons_of_mem _ hm)),
      stockOf_decrementStockForItem_ne cat hd (h hd (List.mem_cons_self _ _))]

lemma stockOf_decrementAllItems (items : List ValidatedItem) :
    ∀ cat : Catalog,
      (items.map (fun it => (it.product, it.size, it.design))).Nodup →
      (∀ it ∈ items, ∃ st, stockOf cat it.product it.size it.design = some st ∧
        (it.quantity : ℤ) ≤ st) →
      ∀ it ∈ items, ∃ st, stockOf cat it.product it.size it.design = some st ∧
        stockOf (decrementAllItems items cat) it.product it.size it.design =
          some (st - it.quantity) := by
  induction items with
  | nil => intro cat _ _ it hit; simp at hit
  | cons hd rest ih =>
    intro cat hkeys hstock it hit
    have hfold : decrementAllItems (hd :: rest) cat =
        decrementAllItems rest (decrementStockForItem cat hd) := rfl
    have hhead := (List.nodup_cons.mp hkeys).1
    rcases List.mem_cons.mp hit with rfl | hmem
    · obtain ⟨st, hs, hq⟩ := hstock it (List.mem_cons_self _ _)
      refine ⟨st, hs, ?_⟩
      rw [hfold]
      have hne : ∀ it' ∈ rest, ¬(it'.product = it.product ∧ it'.size = it.size ∧
          it'.design = it.design) := by
        intro it' hm hcon
        exact hhead (by
          rw [List.mem_map]
          obtain ⟨a, b, c⟩ := hcon
          exact ⟨it', hm, by simp [a, b, c]⟩)
      rw [stockOf_decrementAllItems_ne rest hne _,
        stockOf_decrementStockForItem_self cat it hs hq]
    · have hne : ¬(hd.product = it.product ∧ hd.size = it.size ∧ hd.design = it.design) := by
        intro hcon
        exact hhead (by
          rw [List.mem_map]
          obtain ⟨a, b, c⟩ := hcon
          exact ⟨it, hmem, by simp [a, b, c]⟩)
      have hstock' : ∀ it' ∈ rest, ∃ st,
          stockOf (decrementStockForItem cat hd) it'.product it'.size it'.design = some st ∧
          (it'.quantity : ℤ) ≤ st := by
        intro it' hm
        obtain ⟨st, hs, hq⟩ := hstock it' (List.mem_cons_of_mem _ hm)
        by_cases hsame : hd.product = it'.product ∧ hd.size = it'.size ∧ hd.design = it'.design
        · exact absurd (by
            rw [List.mem_map]
            obtain ⟨a, b, c⟩ := hsame
            exact ⟨it', hm, by simp [a, b, c]⟩) hhead
        · exact ⟨st, by rw [stockOf_decrementStockForItem_ne cat hd hsame]; exact hs, hq⟩
      obtain ⟨st, hs', hdec⟩ := ih (decrementStockForItem cat hd)
        (List.nodup_cons.mp hkeys).2 hstock' it hmem
      refine ⟨st, ?_, by rw [hfold]; exact hdec⟩
      rw [← stockOf_decrementStockForItem_ne cat hd hne]
      exact hs'

/-- The catalog invariant that no variant stock is negative. -/
def catalogNonneg (cat : Catalog) : Prop :=
  ∀ p ∈ cat, ∀ v ∈ p.variants, 0 ≤ v.stock

lemma mem_saveProductIn {cat : Catalog} {p' q : Product} (h : q ∈ saveProductIn cat p') :
    q ∈ cat ∨ q = p' := by
  induction cat with
  | nil => simp [saveProductIn] at h
  | cons r cat ih =>
    unfold saveProductIn at h
    split at h
    · rcases List.mem_cons.mp h with rfl | hm
      · exact Or.inr rfl
      · exact Or.inl (List.mem_cons_of_mem _ hm)
    · rcases List.mem_cons.mp h with rfl | hm
      · exact Or.inl (List.mem_cons_self _ _)
      · rcases ih hm with h1 | h2
        · exact Or.inl (List.mem_cons_of_mem _ h1)
        · exact Or.inr h2

lemma mem_updateFirstVariant {vs : List Variant} {s d : String} {ns : ℤ} {w : Variant}
    (h : w ∈ updateFirstVariant vs s d ns) : w ∈ vs ∨ w.stock = ns := by
  induction vs with
  | nil => simp [updateFirstVariant] at h
  | cons v vs ih =>
    unfold updateFirstVariant at h
    split at h
    · rcases List.mem_cons.mp h with rfl | hm
      · exact Or.inr rfl
      · exact Or.inl (List.mem_cons_of_mem _ hm)
    · rcases List.mem_cons.mp h with rfl | hm
      · exact Or.inl (List.mem_cons_self _ _)
      · rcases ih hm with h1 | h2
        · exact Or.inl (List.mem_cons_of_mem _ h1)
        · exact Or.inr h2

lemma decrementStockForItem_nonneg (cat : Catalog) (it : ValidatedItem)
    (h : catalogNonneg cat) : catalogNonneg (decrementStockForItem cat it) := by
  cases hfp : cat.find? (fun q => q.id == it.product) with
  | none => rw [decrementStockForItem_notFound hfp]; exact h
  | some p =>
    cases hfv : p.variants.find? (fun v => v.size == it.size && v.design == it.design) with
    | none => rw [decrementStockForItem_noVariant hfp hfv]; exact h
    | some v =>
      rw [decrementStockForItem_some hfp hfv]
      by_cases hst : (it.quantity : ℤ) ≤ v.stock
      · rw [if_pos hst]
        intro q hq w hw
        rcases mem_saveProductIn hq with h1 | rfl
        · exact h q h1 w hw
        · rcases mem_updateFirstVariant hw with h2 | h3
          · exact h p (List.mem_of_find?_eq_some hfp) w h2
          · rw [h3]; omega
      · rw [if_neg hst]; exact h

lemma decrementAllItems_nonneg (items : List ValidatedItem) :
    ∀ cat : Catalog, catalogNonneg cat → catalogNonneg (decrementAllItems items cat) := by
  induction items with
  | nil => intro cat h; exact h
  | cons hd rest ih =>
    intro cat h
    exact ih (decrementStockForItem cat hd) (decrementStockForItem_nonneg cat hd h)

/-- C2: the checkout-completed reconciliation never drives any variant's
stock below zero — a decrement happens only when the variant exists with
stock at least the line quantity — and a line whose variant is missing or
short on stock is skipped as the identity, leaving the remaining lines'
reconciliation to proceed unchanged. -/
theorem checkout_completed_stock_nonneg (s : StripeSession) (now : ℕ) (db : DB)
    (h0 : catalogNonneg db.products) :
    catalogNonneg (handleCheckoutSessionCompleted s now db).products ∧
    (∀ (cat : Catalog) (it : ValidatedItem) (rest : List ValidatedItem),
      (stockOf cat it.product it.size it.design = none ∨
        ∃ st, stockOf cat it.product it.size it.design = some st ∧ st < (it.quantity : ℤ)) →
      decrementAllItems (it :: rest) cat = decrementAllItems rest cat) := by
  constructor
  · unfold handleCheckoutSessionCompleted
    cases hf : findOrderById db s.orderId with
    | none => exact h0
    | some o => exact decrementAllItems_nonneg _ _ h0
  · intro cat it rest h
    have hskip : decrementStockForItem cat it = cat := by
      unfold stockOf at h
      cases hfp : cat.find? (fun p => p.id == it.product) with
      | none => exact decrementStockForItem_notFound hfp
      | some p =>
        rw [hfp] at h
        simp only [Option.some_bind] at h
        cases hfv : p.variants.find? (fun v => v.size == it.size && v.design == it.design) with
        | none => exact decrementStockForItem_noVariant hfp hfv
        | some v =>
          rw [hfv] at h
          simp only [Option.map_some'] at h
          have hlt : v.stock < (it.quantity : ℤ) := by
            rcases h with h | ⟨st, hst, hlt⟩
            · simp at h
            · cases Option.some.inj hst; exact hlt
          rw [decrementStockForItem_some hfp hfv, if_neg (by omega)]
    show decrementAllItems rest (decrementStockForItem cat it) = decrementAllItems rest cat
    rw [hskip]

theorem checkout_completed_stock_nonneg_witness :
    catalogNonneg (handleCheckoutSessionCompleted ⟨1, "pi"⟩ 7
      ⟨[⟨1, 1, 1, [⟨1, "t", 20, 9, "M", "d"⟩], 20, 2, 0, 22, "",
        ⟨.pending, 22, "s", none, none⟩, .pending, none, none, []⟩],
        [⟨1, "t", 20, true, [⟨"M", "d", 5⟩]⟩]⟩).products :=
  (checkout_completed_stock_nonneg ⟨1, "pi"⟩ 7
    ⟨[⟨1, 1, 1, [⟨1, "t", 20, 9, "M", "d"⟩], 20, 2, 0, 22, "",
      ⟨.pending, 22, "s", none, none⟩, .pending, none, none, []⟩],
      [⟨1, "t", 20, true, [⟨"M", "d", 5⟩]⟩]⟩
    (by intro p hp v hv; simp at hp; subst hp; simp at hv; subst hv; decide)).1

lemma find?_saveOrderIn_self {os : List Order} {o o' : Order} {oid : ℕ}
    (hfind : os.find? (fun q => q.id == oid) = some o) (hid : o'.id = o.id) :
    (saveOrderIn os o').find? (fun q => q.id == oid) = some o' := by
  induction os with
  | nil => simp at hfind
  | cons q os ih =>
    by_cases hq : ((fun r : Order => r.id == oid) q) = true
    · rw [@List.find?_cons_of_pos _ (fun r : Order => r.id == oid) q os hq] at hfind
      have hqp : q = o := Option.some.inj hfind
      subst hqp
      have hq' : q.id = oid := by simpa using hq
      unfold saveOrderIn
      rw [if_pos (by simp [hid])]
      exact @List.find?_cons_of_pos _ (fun r : Order => r.id == oid) o' os (by simp [hid, hq'])
    · rw [@List.find?_cons_of_neg _ (fun r : Order => r.id == oid) q os hq] at hfind
      have hoid : o.id = oid := by simpa using List.find?_some hfind
      unfold saveOrderIn
      have hne : ¬(q.id == o'.id) = true := by
        simp only [beq_iff_eq, hid, hoid]
        intro hcon
        exact hq (by simp [hcon])
      rw [if_neg hne,
        @List.find?_cons_of_neg _ (fun r : Order => r.id == oid) q (saveOrderIn os o') hq]
      exact ih hfind

lemma handleCheckoutSessionCompleted_found {db : DB} {s : StripeSession} {now : ℕ} {o : Order}
    (hfind : findOrderById db s.orderId = some o) :
    handleCheckoutSessionCompleted s now db =
      ⟨saveOrderIn db.orders (csCompletedUpdate o s now),
        decrementAllItems (csCompletedUpdate o s now).items db.products⟩ := by
  unfold handleCheckoutSessionCompleted
  rw [hfind]

/-- C1: redelivering the same checkout-session-completed event to an order
with sufficient stock (and pairwise-distinct line-item variant keys) yields
the same payment status (paid) and order status (confirmed) as a single
delivery, but runs the stock loop again: each line item's variant stock is
decremented once after one delivery and twice after two. -/
theorem checkout_completed_redelivery_decrements_twice
    (db : DB) (s : StripeSession) (now now' : ℕ) (order : Order)
    (hfind : findOrderById db s.orderId = some order)
    (hkeys : (order.items.map (fun it => (it.product, it.size, it.design))).Nodup)
    (hstock : ∀ it ∈ order.items, ∃ st,
      stockOf db.products it.product it.size it.design = some st ∧
      2 * (it.quantity : ℤ) ≤ st) :
    ∃ o1 o2,
      findOrderById (handleCheckoutSessionCompleted s now db) s.orderId = some o1 ∧
      findOrderById (handleCheckoutSessionCompleted s now'
        (handleCheckoutSessionCompleted s now db)) s.orderId = some o2 ∧
      o1.paymentInfo.status = .paid ∧ o1.status = .confirmed ∧
      o2.paymentInfo.status = .paid ∧ o2.status = .confirmed ∧
      ∀ it ∈ order.items, ∃ st,
        stockOf db.products it.product it.size it.design = some st ∧
        stockOf (handleCheckoutSessionCompleted s now db).products
          it.product it.size it.design = some (st - it.quantity) ∧
        stockOf (handleCheckoutSessionCompleted s now'
          (handleCheckoutSessionCompleted s now db)).products
          it.product it.size it.design = some (st - 2 * it.quantity) := by
  have hfind1 : findOrderById (handleCheckoutSessionCompleted s now db) s.orderId =
      some (csCompletedUpdate order s now) := by
    rw [handleCheckoutSessionCompleted_found hfind]
    unfold findOrderById
    exact find?_saveOrderIn_self hfind rfl
  have hfind2 : findOrderById (handleCheckoutSessionCompleted s now'
      (handleCheckoutSessionCompleted s now db)) s.orderId =
      some (csCompletedUpdate (csCompletedUpdate order s now) s now') := by
    rw [handleCheckoutSessionCompleted_found hfind1]
    unfold findOrderById
    exact find?_saveOrderIn_self hfind1 rfl
  have hprod1 : (handleCheckoutSessionCompleted s now db).products =
      decrementAllItems order.items db.products := by
    rw [handleCheckoutSessionCompleted_found hfind]
    rfl
  have hprod2 : (handleCheckoutSessionCompleted s now'
      (handleCheckoutSessionCompleted s now db)).products =
      decrementAllItems order.items (decrementAllItems order.items db.products) := by
    rw [handleCheckoutSessionCompleted_found hfind1, hprod1]
    rfl
  have hstock1 : ∀ it ∈ order.items, ∃ st,
      stockOf db.products it.product it.size it.design = some st ∧
      (it.quantity : ℤ) ≤ st := by
    intro it hit
    obtain ⟨st, hs, h2⟩ := hstock it hit
    exact ⟨st, hs, by omega⟩
  have hdec1 := stockOf_decrementAllItems order.items db.products hkeys hstock1
  have hstock2 : ∀ it ∈ order.items, ∃ st,
      stockOf (decrementAllItems order.items db.products)
        it.product it.size it.design = some st ∧
      (it.quantity : ℤ) ≤ st := by
    intro it hit
    obtain ⟨st, hs, hd⟩ := hdec1 it hit
    obtain ⟨st', hs', h2⟩ := hstock it hit
    have hst : st = st' := Option.some.inj (hs.symm.trans hs')
    subst hst
    exact ⟨st - it.quantity, hd, by omega⟩
  have hdec2 := stockOf_decrementAllItems order.items
    (decrementAllItems order.items db.products) hkeys hstock2
  refine ⟨csCompletedUpdate order s now,
    csCompletedUpdate (csCompletedUpdate order s now) s now',
    hfind1, hfind2, rfl, rfl, rfl, rfl, ?_⟩
  intro it hit
  obtain ⟨st, hs, h2⟩ := hstock it hit
  obtain ⟨st1, hs1, hd1⟩ := hdec1 it hit
  have hst1 : st1 = st := Option.some.inj (hs1.symm.trans hs)
  subst hst1
  obtain ⟨st2, hs2, hd2⟩ := hdec2 it hit
  have hst2 : st2 = st1 - it.quantity := Option.some.inj (hs2.symm.trans hd1)
  subst hst2
  refine ⟨st1, hs, ?_, ?_⟩
  · rw [hprod1]
    exact hd1
  · rw [hprod2]
    rw [hd2]
    congr 1
    omega

theorem checkout_completed_redelivery_decrements_twice_witness :
    ∃ o1 o2,
      findOrderById (handleCheckoutSessionCompleted ⟨1, "pi1"⟩ 1
        ⟨[⟨1, 1, 1, [⟨2, "t", 20, 2, "M", "d"⟩], 40, 3, 10, 53, "",
          ⟨.pending, 53, "sess", none, none⟩, .pending, none, none, []⟩],
          [⟨2, "t", 20, true, [⟨"M", "d", 5⟩]⟩]⟩) 1 = some o1 ∧
      findOrderById (handleCheckoutSessionCompleted ⟨1, "pi1"⟩ 2
        (handleCheckoutSessionCompleted ⟨1, "pi1"⟩ 1
          ⟨[⟨1, 1, 1, [⟨2, "t", 20, 2, "M", "d"⟩], 40, 3, 10, 53, "",
            ⟨.pending, 53, "sess", none, none⟩, .pending, none, none, []⟩],
            [⟨2, "t", 20, true, [⟨"M", "d", 5⟩]⟩]⟩)) 1 = some o2 ∧
      o1.paymentInfo.status = .paid ∧ o1.status = .confirmed ∧
      o2.paymentInfo.status = .paid ∧ o2.status = .confirmed ∧
      ∀ it ∈ [(⟨2, "t", 20, 2, "M", "d"⟩ : ValidatedItem)], ∃ st,
        stockOf [⟨2, "t", 20, true, [⟨"M", "d", 5⟩]⟩] it.product it.size it.design = some st ∧
        stockOf (handleCheckoutSessionCompleted ⟨1, "pi1"⟩ 1
          ⟨[⟨1, 1, 1, [⟨2, "t", 20, 2, "M", "d"⟩], 40, 3, 10, 53, "",
            ⟨.pending, 53, "sess", none, none⟩, .pending, none, none, []⟩],
            [⟨2, "t", 20, true, [⟨"M", "d", 5⟩]⟩]⟩).products
          it.product it.size it.design = some (st - it.quantity) ∧
        stockOf (handleCheckoutSessionCompleted ⟨1, "pi1"⟩ 2
          (handleCheckoutSessionCompleted ⟨1, "pi1"⟩ 1
            ⟨[⟨1, 1, 1, [⟨2, "t", 20, 2, "M", "d"⟩], 40, 3, 10, 53, "",
              ⟨.pending, 53, "sess", none, none⟩, .pending, none, none, []⟩],
              [⟨2, "t", 20, true, [⟨"M", "d", 5⟩]⟩]⟩)).products
          it.product it.size it.design = some (st - 2 * it.quantity) := by
  have h := checkout_completed_redelivery_decrements_twice
    ⟨[⟨1, 1, 1, [⟨2, "t", 20, 2, "M", "d"⟩], 40, 3, 10, 53, "",
      ⟨.pending, 53, "sess", none, none⟩, .pending, none, none, []⟩],
      [⟨2, "t", 20, true, [⟨"M", "d", 5⟩]⟩]⟩
    ⟨1, "pi1"⟩ 1 2
    ⟨1, 1, 1, [⟨2, "t", 20, 2, "M", "d"⟩], 40, 3, 10, 53, "",
      ⟨.pending, 53, "sess", none, none⟩, .pending, none, none, []⟩
    rfl (by simp)
    (by
      intro it hit
      simp only [List.mem_singleton] at hit
      subst hit
      exact ⟨5, rfl, by decide⟩)
  exact h

/-- Counterexample to C3 as stated: with the admin-enterable sub-cent price
0.554 (qty 1) the cart validates successfully, the code's returned total is
round2 of the raw sum (10.59), yet round2(round2 subtotal + round2 tax +
round2 shipping) = round2(0.55 + 0.04 + 9.99) = 10.58. -/
theorem cart_validate_total_counterexample :
    ∃ res : CartResponse,
      (cartValidate [⟨1, "M", "d", 1⟩]
        [⟨1, "t", 554/1000, true, [⟨"M", "d", 5⟩]⟩]).1 = .ok res ∧
      res.total ≠ round2 (res.subtotal + res.tax + res.shipping) := by
  have hok : (cartValidate [⟨1, "M", "d", 1⟩]
      [⟨1, "t", 554/1000, true, [⟨"M", "d", 5⟩]⟩]).1 =
      .ok ⟨[⟨1, "t", 554/1000, 1, "M", "d"⟩], 55/100, 4/100, 999/100, 1059/100⟩ := by
    norm_num [cartValidate, validateLoop, findActiveProduct, findVariant, round2, mathRound,
      List.find?]
  refine ⟨_, hok, ?_⟩
  norm_num [round2, mathRound]
